import Mathlib

/-!
Verification of the name-normalization helper of the pinrex_db_models
repository, together with the `search_name` construction invariant of the
name-record models.

Python strings are sequences of Unicode codepoints, and the helper
manipulates codepoints explicitly (the translate table is built with
`ord`), so strings are embedded as `List Nat` of codepoints.
-/

namespace PinrexDb

/-- Codepoint sequence of a Lean string literal, used to write concrete
test inputs readably. -/
def strCodes (s : String) : List Nat := s.data.map Char.toNat

/-- Per-codepoint lowercasing, exactly as Python `str.lower` acts on
ASCII and on the Latin-1 supplement: `A`-`Z` and the Latin-1 uppercase
letters U+00C0-U+00D6 and U+00D8-U+00DE (the multiplication sign U+00D7
is excluded) map 32 up; everything else in those blocks is a fixed
point, notably U+00E2 and the whitespace codepoints. Codepoints above
U+00FF are left fixed; of those, the only ones appearing in this
development are U+20AC and U+1D400, both fixed points of the real
`str.lower` as well (U+1D400 is an uppercase letter with no lowercase
mapping). -/
def pyLower (n : Nat) : Nat :=
  if (65 ≤ n ∧ n ≤ 90) ∨ (0xc0 ≤ n ∧ n ≤ 0xd6) ∨ (0xd8 ≤ n ∧ n ≤ 0xde) then
    n + 32
  else n

/-- Python `str.strip` whitespace class, i.e. the codepoints for which
`str.isspace` is true: U+0009-U+000D, U+001C-U+001F, space, U+0085,
U+00A0 (no-break space), U+1680, U+2000-U+200A, U+2028, U+2029, U+202F,
U+205F and U+3000. -/
def pyIsSpace (n : Nat) : Bool :=
  (0x9 ≤ n && n ≤ 0xd) || (0x1c ≤ n && n ≤ 0x1f) || n == 0x20 ||
  n == 0x85 || n == 0xa0 || n == 0x1680 || (0x2000 ≤ n && n ≤ 0x200a) ||
  n == 0x2028 || n == 0x2029 || n == 0x202f || n == 0x205f || n == 0x3000

/-- Python `str.strip`: drop leading and trailing whitespace. -/
def pyStrip (s : List Nat) : List Nat :=
  ((s.dropWhile pyIsSpace).reverse.dropWhile pyIsSpace).reverse

/-- Codepoints of the translate string in `helpers.py` line 5, byte-exact
from the source file: `:`, `\x7b`, `\x7d`, `-`, space, `(`, `)`, `[`, `]`,
`,`, U+00E2, U+20AC, straight single quote, double quote. -/
def removalCodes : List Nat :=
  [0x3a, 0x7b, 0x7d, 0x2d, 0x20, 0x28, 0x29, 0x5b, 0x5d, 0x2c,
   0xe2, 0x20ac, 0x27, 0x22]

/-- A codepoint survives the translate table iff it is not a key of the
table, i.e. not in the removal string. -/
def keepCode (n : Nat) : Bool := decide (n ∉ removalCodes)

/-- Python `str.translate` with a table mapping each codepoint of the
removal string to `None`: delete every occurrence of those codepoints. -/
def pyTranslateDel (s : List Nat) : List Nat :=
  s.filter keepCode

/-- The helper `make_name_searchable` from `src/pinrex/db/helpers.py`,
line by line. Line 3 strips, but line 4 reads `name.lower()` (not the
stripped value), so the stripped value is a dead binding, kept here for
fidelity. -/
def make_name_searchable (name : List Nat) : List Nat :=
  let _search_name := pyStrip name
  let search_name := name.map pyLower
  let search_name := pyTranslateDel search_name
  search_name

/-- The ordering of steps the spec describes as the reference behavior:
trim first, case-fold second, remove characters third. -/
def normalizeTrimFirst (name : List Nat) : List Nat :=
  pyTranslateDel ((pyStrip name).map pyLower)

/-- Uppercase alphabetic codepoint (Unicode general category Lu), on the
fragment of the standard this development touches: ASCII, the Latin-1
uppercase letters, and the mathematical bold capitals U+1D400-U+1D419,
which are category Lu but have no lowercase mapping. -/
def isUpperAlpha (n : Nat) : Bool :=
  (65 ≤ n && n ≤ 90) || (0xc0 ≤ n && n ≤ 0xd6) || (0xd8 ≤ n && n ≤ 0xde) ||
  (0x1d400 ≤ n && n ≤ 0x1d419)

/-- The helper, with the dead stripped binding removed. -/
theorem make_eq (s : List Nat) :
    make_name_searchable s = pyTranslateDel (s.map pyLower) := rfl

theorem pyLower_idem (n : Nat) : pyLower (pyLower n) = pyLower n := by
  unfold pyLower
  split
  · rw [if_neg]
    omega
  · rfl

/-- Each element of the helper's output comes from lowercasing an input
codepoint and survives the removal filter. -/
theorem mem_make (s : List Nat) (n : Nat) (h : n ∈ make_name_searchable s) :
    keepCode n = true ∧ ∃ a ∈ s, pyLower a = n := by
  rw [make_eq] at h
  unfold pyTranslateDel at h
  rw [List.mem_filter] at h
  obtain ⟨hmem, hkeep⟩ := h
  rw [List.mem_map] at hmem
  exact ⟨hkeep, hmem⟩

theorem pyTranslateDel_reverse (l : List Nat) :
    pyTranslateDel l.reverse = (pyTranslateDel l).reverse :=
  List.filter_reverse keepCode l

theorem del_lower_reverse (l : List Nat) :
    pyTranslateDel (l.reverse.map pyLower) = (pyTranslateDel (l.map pyLower)).reverse := by
  rw [List.map_reverse, pyTranslateDel_reverse]

/-- Dropping a leading run of whitespace changes nothing after the
case-fold and removal steps, provided every whitespace codepoint of the
input is a plain space (the only whitespace the removal set holds). -/
theorem del_lower_dropWhile (l : List Nat)
    (h : ∀ n ∈ l, pyIsSpace n = true → n = 0x20) :
    pyTranslateDel ((l.dropWhile pyIsSpace).map pyLower) =
      pyTranslateDel (l.map pyLower) := by
  induction l with
  | nil => rfl
  | cons a l ih =>
    rw [List.dropWhile_cons]
    by_cases hsp : pyIsSpace a = true
    · rw [if_pos hsp]
      have ha : a = 0x20 := h a (List.mem_cons_self a l) hsp
      subst ha
      rw [ih fun n hn hsn => h n (List.mem_cons_of_mem _ hn) hsn]
      rw [List.map_cons]
      unfold pyTranslateDel
      rw [List.filter_cons]
      have hk : keepCode (pyLower 0x20) = false := by decide
      rw [hk]
      simp
    · rw [if_neg hsp]

/-- The trim-first pipeline and the bare case-fold-then-remove pipeline
agree whenever every whitespace codepoint of the input is a plain space. -/
theorem del_lower_strip (s : List Nat)
    (h : ∀ n ∈ s, pyIsSpace n = true → n = 0x20) :
    pyTranslateDel ((pyStrip s).map pyLower) = pyTranslateDel (s.map pyLower) := by
  have hsub : ∀ n ∈ (s.dropWhile pyIsSpace).reverse, pyIsSpace n = true → n = 0x20 := by
    intro n hn hsn
    exact h n ((List.dropWhile_sublist pyIsSpace).mem (List.mem_reverse.mp hn)) hsn
  unfold pyStrip
  rw [del_lower_reverse, del_lower_dropWhile _ hsub, del_lower_reverse,
    List.reverse_reverse, del_lower_dropWhile _ h]

/-- The columns of `solvent_names` that the construction invariant is
about (`src/pinrex/db/models/solvent.py`). -/
structure SolventName where
  name : List Nat
  search_name : List Nat

/-- The constructor `SolventName.__init__`: `super().__init__(**kwargs)`
assigns the attributes passed by the caller — including an explicit
`search_name` keyword when one is given — and the body then overwrites
`search_name` with `make_name_searchable(kwargs["name"])`. -/
def SolventName.init (name : List Nat) (search_name_kwarg : Option (List Nat)) :
    SolventName :=
  let base : SolventName :=
    { name := name, search_name := search_name_kwarg.getD [] }
  { base with search_name := make_name_searchable name }

/-- The columns of `polymer_names` that the construction invariant is
about (`src/pinrex/db/models/polymer.py`). -/
structure PolymerName where
  name : List Nat
  search_name : List Nat

/-- The constructor `PolymerName.__init__`, same shape as
`SolventName.__init__`. -/
def PolymerName.init (name : List Nat) (search_name_kwarg : Option (List Nat)) :
    PolymerName :=
  let base : PolymerName :=
    { name := name, search_name := search_name_kwarg.getD [] }
  { base with search_name := make_name_searchable name }

/-- C1 (counterexample): the claim that no output ever contains an
uppercase alphabetic character fails at U+1D400 (MATHEMATICAL BOLD
CAPITAL A): it is category Lu but `str.lower` has no mapping for it, and
it is not in the removal set, so it survives unchanged. -/
theorem c1_counterexample_math_bold_capital :
    make_name_searchable [0x1d400] = [0x1d400] ∧ isUpperAlpha 0x1d400 = true := by
  decide

/-- C1 (amended): every codepoint of the output of `make_name_searchable`
is outside the removal set (in particular no space, `:`, braces, `-`,
parentheses, square brackets, `,`, straight single quote or double
quote) and is a fixed point of the lowercase mapping — so no uppercase
letter that has a lowercase form appears, while uppercase letters
without one, such as U+1D400, can pass through. -/
theorem c1_amended_output_removal_free_and_lower_fixed (s : List Nat) :
    (make_name_searchable s).all
      (fun n => keepCode n && (pyLower n == n)) = true := by
  rw [List.all_eq_true]
  intro n hn
  obtain ⟨hkeep, a, _, rfl⟩ := mem_make s n hn
  simp only [Bool.and_eq_true, beq_iff_eq]
  exact ⟨hkeep, pyLower_idem a⟩

/-- C2: `make_name_searchable` maps the empty string to the empty string
and satisfies every concrete literal case of the spec and of
`src/tests/test_helpers.py` exactly. -/
theorem c2_concrete_cases :
    make_name_searchable (strCodes ("")) = strCodes ("") ∧
    make_name_searchable (strCodes ("colon:remove")) = strCodes ("colonremove") ∧
    make_name_searchable (strCodes ("Upper_Case")) = strCodes ("upper_case") ∧
    make_name_searchable (strCodes ("\x7bbracket\x7d")) = strCodes ("bracket") ∧
    make_name_searchable (strCodes ("space exists")) = strCodes ("spaceexists") ∧
    make_name_searchable (strCodes ("(parenthesis)")) = strCodes ("parenthesis") ∧
    make_name_searchable (strCodes ("[brackets]")) = strCodes ("brackets") ∧
    make_name_searchable (strCodes ("comma,")) = strCodes ("comma") ∧
    make_name_searchable (strCodes ("dash-")) = strCodes ("dash") ∧
    make_name_searchable (strCodes ("\x27single quote")) = strCodes ("singlequote") ∧
    make_name_searchable (strCodes ("\x22doublequote\x22")) = strCodes ("doublequote") ∧
    make_name_searchable (strCodes ("Ma\x7bn\x7dy_di[]fferent -\x27iss:\x22(u)e-s")) =
      strCodes ("many_differentissues") := by
  decide

/-- C3: `make_name_searchable` is idempotent. -/
theorem c3_idempotent (s : List Nat) :
    make_name_searchable (make_name_searchable s) = make_name_searchable s := by
  rw [make_eq (make_name_searchable s)]
  have hfix : ∀ x ∈ make_name_searchable s, pyLower x = x := by
    intro x hx
    obtain ⟨_, a, _, rfl⟩ := mem_make s x hx
    exact pyLower_idem a
  have hmap : (make_name_searchable s).map pyLower = make_name_searchable s := by
    rw [List.map_congr_left fun a ha => hfix a ha, List.map_id']
  rw [hmap]
  unfold pyTranslateDel
  rw [List.filter_eq_self]
  intro x hx
  exact (mem_make s x hx).1

/-- C4 (divergence witness): line 4 of `helpers.py` reads `name.lower()`
rather than the stripped value, so leading or trailing whitespace other
than the space character survives: on the input `"\ta"` the code keeps
the leading tab, while the spec's trim-first reference pipeline removes
it. -/
theorem c4_leading_tab_survives :
    make_name_searchable (strCodes ("\ta")) = strCodes ("\ta") ∧
    normalizeTrimFirst (strCodes ("\ta")) = strCodes ("a") := by
  decide

/-- C5 (counterexample): the claim that every codepoint outside the
removal set appears in the output fails at U+00C2 (`Â`): it is not in
the removal set, but `str.lower` maps it to U+00E2 (`â`), which the
removal set deletes, so it vanishes from the output. -/
theorem c5_counterexample_circumflex_a :
    make_name_searchable [0xc2] = [] ∧ (0xc2 ∈ removalCodes → False) := by
  decide

/-- C5 (amended): the removal filter applies to the lowercased
codepoint: the output is exactly the subsequence of codepoints whose
lowercase form is outside the removal set, each lowercased, in original
order and multiplicity — so beyond the listed set the only extra
deletion is `Â` (U+00C2), whose lowercase form `â` is removable, and
nothing is otherwise altered, reordered or deduplicated. -/
theorem c5_amended_lower_of_filter_lowered (s : List Nat) :
    make_name_searchable s =
      (s.filter fun n => keepCode (pyLower n)).map pyLower := by
  rw [make_eq]
  unfold pyTranslateDel
  rw [List.filter_map]
  rfl

/-- C6 (counterexample): trimming first is not always redundant — on the
input `"\t"` the trim-first pipeline returns the empty string while the
code's case-fold-then-remove pipeline keeps the tab. -/
theorem c6_counterexample_tab :
    ¬ normalizeTrimFirst (strCodes ("\t")) = make_name_searchable (strCodes ("\t")) := by
  decide

/-- C6 (amended): the trim step is redundant on every input whose
whitespace codepoints are all plain spaces — there the trim-first
pipeline and the code's case-fold-then-remove pipeline agree. -/
theorem c6_amended_trim_redundant_for_space_only (s : List Nat)
    (h : ∀ n ∈ s, pyIsSpace n = true → n = 0x20) :
    normalizeTrimFirst s = make_name_searchable s := by
  rw [make_eq]
  unfold normalizeTrimFirst
  exact del_lower_strip s h

theorem c6_amended_witness :
    (∀ n ∈ strCodes (" A b "), pyIsSpace n = true → n = 0x20) ∧
    normalizeTrimFirst (strCodes (" A b ")) = make_name_searchable (strCodes (" A b ")) :=
  ⟨by decide, c6_amended_trim_redundant_for_space_only (strCodes (" A b ")) (by decide)⟩

/-- C7: after construction of a `SolventName` or `PolymerName` record,
`search_name` equals `make_name_searchable` of the supplied raw name,
whatever `search_name` keyword the caller passed (the constructor
overwrites it). -/
theorem c7_search_name_recomputed (name : List Nat)
    (search_name_kwarg : Option (List Nat)) :
    (SolventName.init name search_name_kwarg).search_name =
        make_name_searchable name ∧
      (PolymerName.init name search_name_kwarg).search_name =
        make_name_searchable name :=
  ⟨rfl, rfl⟩

/-- C8: `make_name_searchable` is total and deterministic — every input
string is mapped to exactly one result. -/
theorem c8_total_deterministic (s : List Nat) :
    ∃! r : List Nat, make_name_searchable s = r :=
  ⟨make_name_searchable s, rfl, fun _ hy => hy.symm⟩

/-- C9: the codepoints U+00E2 and U+20AC of the mis-encoded apostrophe
sequence are deleted individually wherever each occurs, not only as the
full sequence: `"cât"` normalizes to `"ct"`, and neither codepoint ever
appears in any output. -/
theorem c9_mojibake_codepoints_deleted_individually :
    make_name_searchable (strCodes ("cât")) = strCodes ("ct") ∧
    ∀ s : List Nat, (make_name_searchable s).all
      (fun n => !(n == 0xe2) && !(n == 0x20ac)) = true := by
  refine ⟨by decide, fun s => ?_⟩
  rw [List.all_eq_true]
  intro n hn
  obtain ⟨hkeep, _, _, rfl⟩ := mem_make s n hn
  have hmem := of_decide_eq_true hkeep
  simp only [Bool.and_eq_true, Bool.not_eq_true', beq_eq_false_iff_ne, ne_eq]
  constructor
  · intro he
    exact hmem (he ▸ (by decide : (0xe2 : Nat) ∈ removalCodes))
  · intro he
    exact hmem (he ▸ (by decide : (0x20ac : Nat) ∈ removalCodes))

/-- C10: restricted to ASCII inputs, `make_name_searchable` distributes
over concatenation (the transform is per-codepoint because the stripped
value is discarded). -/
theorem c10_ascii_append_hom (s t : List Nat)
    (hs : ∀ n ∈ s, n < 128) (ht : ∀ n ∈ t, n < 128) :
    make_name_searchable (s ++ t) =
      make_name_searchable s ++ make_name_searchable t := by
  rw [make_eq, make_eq, make_eq, List.map_append]
  unfold pyTranslateDel
  rw [List.filter_append]

theorem c10_witness :
    (∀ n ∈ strCodes ("Ab"), n < 128) ∧ (∀ n ∈ strCodes ("c-"), n < 128) ∧
    make_name_searchable (strCodes ("Ab") ++ strCodes ("c-")) =
      make_name_searchable (strCodes ("Ab")) ++ make_name_searchable (strCodes ("c-")) :=
  ⟨by decide, by decide,
    c10_ascii_append_hom (strCodes ("Ab")) (strCodes ("c-")) (by decide) (by decide)⟩

end PinrexDb
